import Mathlib

/-!
Shallow embedding of the goresponsiveness core: the percentile helper and
Iota from utilities.go, the load-generating connection collection from
lgc/collection.go, the orchestrator measurement loop, probe-measurement
processing, teardown sequence and final RPM computation from the main
program, and the quality-attenuation estimator (whose implementation is not
among the embedded sources and is modelled from the spec, pinned by the
embedded unit tests).  Durations and latencies are modelled as rationals.
-/

/-! ### utilities.go: Iota and CalculatePercentile -/

/-- Embeds Iota (utilities.go lines 38-45): a slice of length high - low
whose entry at position counter - low is counter, i.e. the list
[low, low+1, ..., high-1] for high at least low. -/
def Iota (low high : Int) : List Int :=
  (List.range (high - low).toNat).map (fun (counter : Nat) => low + (counter : Int))

/-- Embeds the index computation of CalculatePercentile (utilities.go line
169): percentileIdx := elementsCount * (percentile / 100), where the inner
division is the truncating integer division of Go (Int.tdiv). -/
def percentileIdx (elementsCount : Int) (percentile : Int) : Int :=
  elementsCount * (percentile.tdiv 100)

/-- Embeds CalculatePercentile (utilities.go lines 166-171): sort the slice
ascending, then index it at percentileIdx.  A slice access outside
[0, length) panics in Go; the panic is modelled as none. -/
def CalculatePercentile (elements : List Int) (percentile : Int) : Option Int :=
  let sorted := elements.insertionSort (fun a b => a ≤ b)
  let idx := percentileIdx (elements.length : Int) percentile
  if 0 ≤ idx then sorted[idx.toNat]? else none

/-! ### lgc/collection.go: the load-generating connection collection -/

/-- Result of LoadGeneratingConnectionCollection.Get (collection.go lines
31-41).  The panics constructor models the Go runtime panic raised by an
out-of-range slice access. -/
inductive GetResult (α : Type) where
  | ok (c : α)
  | errUnlocked
  | errIndexTooLarge
  | panics
deriving DecidableEq, Repr

/-- Embeds Get (collection.go lines 31-41).  The locked argument is whether
the mutex of the collection is currently held; TryLock succeeds exactly when
it is not, in which case Get returns the "collection is unlocked" error.
Otherwise an index with idx > len is rejected as too large, and any
remaining index is used to access the slice, which panics outside
[0, len). -/
def collectionGet {α : Type} (locked : Bool) (lgcs : List α) (idx : Int) : GetResult α :=
  if locked = false then GetResult.errUnlocked
  else if (lgcs.length : Int) < idx then GetResult.errIndexTooLarge
  else if 0 ≤ idx then
    match lgcs[idx.toNat]? with
    | some c => GetResult.ok c
    | none => GetResult.panics
  else GetResult.panics

/-- Embeds Append (collection.go lines 43-50): with the mutex unheld it
returns the "collection is unlocked" error and the slice is unchanged; with
the mutex held it appends conn and returns no error.  The result pair is
(error, slice contents afterwards). -/
def collectionAppend {α : Type} (locked : Bool) (lgcs : List α) (conn : α) :
    Option String × List α :=
  if locked = false then (some "collection is unlocked", lgcs)
  else (none, lgcs ++ [conn])

/-- Embeds Len (collection.go lines 52-54). -/
def collectionLen {α : Type} (lgcs : List α) : Nat := lgcs.length

/-- One operation on a collection.  Each is performed under some lock state
supplied alongside it. -/
inductive CollectionOp (α : Type) where
  | getOp (idx : Int)
  | appendOp (conn : α)
  | lenOp
deriving Repr

/-- Effect of one operation on the slice contents: Get and Len never write,
Append writes exactly as collectionAppend does. -/
def applyOp {α : Type} (lgcs : List α) : Bool × CollectionOp α → List α
  | (_, CollectionOp.getOp _) => lgcs
  | (_, CollectionOp.lenOp) => lgcs
  | (b, CollectionOp.appendOp conn) => (collectionAppend b lgcs conn).2

/-- Slice contents after a sequence of operations. -/
def applyOps {α : Type} (lgcs : List α) (ops : List (Bool × CollectionOp α)) : List α :=
  ops.foldl applyOp lgcs

/-! ### The orchestrator measurement loop (main, utilities.go lines 721-805) -/

/-- An event the measurement loop of the orchestrator can receive.
Measurement events carry the stabilizer verdict IsStable observed right
after AddMeasurement; the stabilizer implementation is not among the
embedded sources, so its verdict is abstracted as this boolean. -/
inductive OrchEvent where
  | downloadMeasurement (isStable : Bool)
  | uploadMeasurement (isStable : Bool)
  | probeMeasurement (isStable : Bool)
  | timeoutFired
deriving DecidableEq, Repr

/-- The three stability flags maintained by the orchestrator. -/
structure StabilityFlags where
  responsivenessIsStable : Bool
  downloadThroughputIsStable : Bool
  uploadThroughputIsStable : Bool
deriving DecidableEq, Repr

/-- The loop guard (line 722): the loop continues while not
(responsivenessIsStable and downloadThroughputIsStable and
uploadThroughputIsStable). -/
def allStable (f : StabilityFlags) : Bool :=
  f.responsivenessIsStable && f.downloadThroughputIsStable && f.uploadThroughputIsStable

/-- Embeds testRanToStability (line 805): downloadThroughputIsStable and
uploadThroughputIsStable and responsivenessIsStable at loop exit. -/
def testRanToStability (f : StabilityFlags) : Bool :=
  f.downloadThroughputIsStable && f.uploadThroughputIsStable && f.responsivenessIsStable

/-- Embeds the measurement loop (lines 721-800): while the three flags are
not simultaneously stable, consume the next event, updating the matching
flag with the stabilizer verdict; a timeout event breaks out of the loop
immediately.  The result is the final flags paired with true when the exit
was by timeout, or none when the event trace ends with the loop still
waiting on its channels. -/
def measurementLoop (f : StabilityFlags) : List OrchEvent → Option (StabilityFlags × Bool)
  | [] => if allStable f then some (f, false) else none
  | ev :: rest =>
    if allStable f then some (f, false)
    else
      match ev with
      | OrchEvent.downloadMeasurement b =>
          measurementLoop { f with downloadThroughputIsStable := b } rest
      | OrchEvent.uploadMeasurement b =>
          measurementLoop { f with uploadThroughputIsStable := b } rest
      | OrchEvent.probeMeasurement b =>
          measurementLoop { f with responsivenessIsStable := b } rest
      | OrchEvent.timeoutFired => some (f, true)

/-- Lines of the final human-readable report that concern stability and RPM
(main, utilities.go lines 943-948). -/
inductive ReportLine where
  | estimateWarning
  | rpmP90 (value : ℚ)
  | rpmTrimmedMean (value : ℚ)
deriving DecidableEq, Repr

/-- Embeds the report emission (lines 943-948): when the test did not run to
stability the estimate warning is printed first; the two RPM lines are
printed unconditionally. -/
def finalReportLines (ranToStability : Bool) (p90Rpm meanRpm : ℚ) : List ReportLine :=
  (if ranToStability then [] else [ReportLine.estimateWarning])
    ++ [ReportLine.rpmP90 p90Rpm, ReportLine.rpmTrimmedMean meanRpm]

/-! ### Teardown (main, utilities.go lines 821-860) -/

/-- The teardown steps performed after the measurement loop. -/
inductive TeardownAction where
  | cancelProberOperator
  | cancelDownloadOperator
  | cancelUploadOperator
  | gatherExtendedStats
  | cancelNetworkActivity
  | cancelOperating
deriving DecidableEq, Repr

/-- Embeds the teardown sequence after the measurement loop (lines 821-860).
The code after the loop is straight-line, so the sequence is the same
whether the loop exited by stabilization or by timeout; the extended-stats
gathering happens only when the extended-stats flag is set. -/
def postLoopTeardown (_ranToStability : Bool) (calculateExtendedStats : Bool) :
    List TeardownAction :=
  [TeardownAction.cancelProberOperator, TeardownAction.cancelDownloadOperator,
   TeardownAction.cancelUploadOperator]
    ++ (if calculateExtendedStats then [TeardownAction.gatherExtendedStats] else [])
    ++ [TeardownAction.cancelNetworkActivity, TeardownAction.cancelOperating]

/-! ### Probe-measurement processing (main, utilities.go lines 774-787) -/

/-- Probe kinds, as referenced by the orchestrator. -/
inductive ProbeType where
  | SelfDown
  | SelfUp
  | Foreign
deriving DecidableEq, Repr

/-- A probe data point as consumed by the orchestrator: its kind, its total
duration in seconds, and its round-trip count. -/
structure ProbeDataPoint where
  type : ProbeType
  durationSeconds : ℚ
  roundTripCount : Nat
deriving DecidableEq, Repr

/-- Embeds the probe-measurement handling of the orchestrator (lines
774-787): a foreign measurement is blown apart into roundTripCount separate
elements of the foreign series, each 1 / roundTripCount of the total
duration (the loop ranges over Iota 0 roundTripCount); a SelfDown or SelfUp
measurement appends its full duration to the self series.  The result is
(selfRtts, foreignRtts) afterwards. -/
def processProbeMeasurement (m : ProbeDataPoint) (selfRtts foreignRtts : List ℚ) :
    List ℚ × List ℚ :=
  if m.type = ProbeType.Foreign then
    (selfRtts,
      foreignRtts ++ (Iota 0 (m.roundTripCount : Int)).map
        (fun _ => m.durationSeconds / (m.roundTripCount : ℚ)))
  else if m.type = ProbeType.SelfDown ∨ m.type = ProbeType.SelfUp then
    (selfRtts ++ [m.durationSeconds], foreignRtts)
  else (selfRtts, foreignRtts)

/-! ### Final RPM computation (main, utilities.go lines 864-890) -/

/-- Modelled from the spec: Percentile of ms.InfiniteMathematicalSeries is
not among the embedded sources; per the spec it is the p-th percentile of
the series, read from the sorted values. -/
def seriesPercentile (s : List ℚ) (p : Nat) : ℚ :=
  (s.insertionSort (fun a b => a ≤ b)).getD (s.length * p / 100) 0

/-- Modelled from the spec: DoubleSidedTrim of ms.InfiniteMathematicalSeries
is not among the embedded sources; per the spec it returns a new series
dropping the lowest p% and the highest p%. -/
def DoubleSidedTrim (s : List ℚ) (p : Nat) : List ℚ :=
  ((s.insertionSort (fun a b => a ≤ b)).drop (s.length * p / 100)).take
    (s.length - 2 * (s.length * p / 100))

/-- Modelled from the spec: CalculateAverage of
ms.InfiniteMathematicalSeries is not among the embedded sources; per the
spec it is the arithmetic mean of the series. -/
def CalculateAverage (s : List ℚ) : ℚ := s.sum / (s.length : ℚ)

/-- Embeds the final RPM computation of the orchestrator (lines 864-890):
the trimmed means are taken over the 10% double-sided trims of the two
series, the P90s over the full untrimmed series, and the two reported
numbers are 60 / ((self + foreign) / 2).  The result is
(p90Rpm, meanRpm). -/
def calculateRpms (selfRtts foreignRtts : List ℚ) : ℚ × ℚ :=
  let selfRttsTrimmed := DoubleSidedTrim selfRtts 10
  let foreignRttsTrimmed := DoubleSidedTrim foreignRtts 10
  let selfProbeRoundTripTimeMean := CalculateAverage selfRttsTrimmed
  let foreignProbeRoundTripTimeMean := CalculateAverage foreignRttsTrimmed
  let selfProbeRoundTripTimeP90 := seriesPercentile selfRtts 90
  let foreignProbeRoundTripTimeP90 := seriesPercentile foreignRtts 90
  (60 / ((selfProbeRoundTripTimeP90 + foreignProbeRoundTripTimeP90) / 2),
   60 / ((selfProbeRoundTripTimeMean + foreignProbeRoundTripTimeMean) / 2))

/-- The formula of the spec: the mean of two numbers. -/
def specMeanOfTwo (a b : ℚ) : ℚ := (a + b) / 2

/-- The double-sided-10%-trimmed mean written from the words of the spec:
sort the series, drop the lowest 10% and the highest 10%, and average the
remaining values. -/
def specTrimmedMean (s : List ℚ) : ℚ :=
  let sorted := s.insertionSort (fun a b => a ≤ b)
  let dropCount := s.length * 10 / 100
  let kept := (sorted.drop dropCount).take (s.length - 2 * dropCount)
  kept.sum / (kept.length : ℚ)

/-! ### Quality attenuation (modelled from the spec, pinned by the embedded
unit tests in the qualityattenuation test file) -/

/-- Modelled from the spec: the SimpleQualityAttenuation state (spec section
3); the implementation is not among the embedded sources.  The empirical
distribution sketch is modelled as the list of live samples. -/
structure SimpleQualityAttenuation where
  numberOfSamples : Int
  numberOfLosses : Int
  minimumLatency : ℚ
  maximumLatency : ℚ
  offsetSum : ℚ
  offsetSumOfSquares : ℚ
  empiricalDistribution : List ℚ
deriving DecidableEq, Repr

/-- Modelled from the spec: NewSimpleQualityAttenuation, a fresh state; the
minimum starts at a sentinel larger than any latency. -/
def NewSimpleQualityAttenuation : SimpleQualityAttenuation :=
  { numberOfSamples := 0, numberOfLosses := 0, minimumLatency := 10 ^ 9,
    maximumLatency := 0, offsetSum := 0, offsetSumOfSquares := 0,
    empiricalDistribution := [] }

/-- Modelled from the spec: AddSample; the qualityattenuation implementation
is not among the embedded sources.  Negative samples are rejected.  A sample
strictly greater than 15 s is a loss ("threshold is strictly greater than",
as pinned by TestManySamples: the ramp contains 10000 samples of at least
15 s yet exactly 9999 losses, and the recorded maximum is 15.0): it
increments numberOfLosses, touches min and max only through the 15 s
threshold bound, and changes neither the offset aggregates nor the empirical
distribution.  Every other sample is live: it updates min and max, adds
sample - 0.1 and its square to the offset aggregates, and joins the
empirical distribution. -/
def AddSample (qa : SimpleQualityAttenuation) (sample : ℚ) :
    Except String SimpleQualityAttenuation :=
  if sample < 0 then Except.error "negative latency"
  else if 15 < sample then
    Except.ok { qa with
      numberOfSamples := qa.numberOfSamples + 1
      numberOfLosses := qa.numberOfLosses + 1
      minimumLatency := min qa.minimumLatency 15
      maximumLatency := max qa.maximumLatency 15 }
  else
    Except.ok { qa with
      numberOfSamples := qa.numberOfSamples + 1
      minimumLatency := min qa.minimumLatency sample
      maximumLatency := max qa.maximumLatency sample
      offsetSum := qa.offsetSum + (sample - 1 / 10)
      offsetSumOfSquares := qa.offsetSumOfSquares + (sample - 1 / 10) ^ 2
      empiricalDistribution := qa.empiricalDistribution ++ [sample] }

/-! ### Theorems -/

/-- Helper: truncating division of a percentile in [0, 100) by 100 is 0. -/
theorem tdiv_hundred_eq_zero {p : Int} (h0 : 0 ≤ p) (h : p < 100) : p.tdiv 100 = 0 := by
  obtain ⟨n, rfl⟩ := Int.eq_ofNat_of_zero_le h0
  show Int.ofNat (n / 100) = 0
  have hn : n < 100 := by exact_mod_cast h
  simp [Nat.div_eq_of_lt hn]

/-- Helper: the first element of the ascending insertion sort of a non-empty
list is a member of the list and is at most every member. -/
theorem insertionSort_head_least (l : List Int) (hne : l ≠ []) :
    ∃ m, (l.insertionSort (fun a b => a ≤ b))[0]? = some m ∧ m ∈ l ∧ ∀ x ∈ l, m ≤ x := by
  have hperm := List.perm_insertionSort (fun a b : Int => a ≤ b) l
  have hsorted := List.sorted_insertionSort (fun a b : Int => a ≤ b) l
  cases hs : l.insertionSort (fun a b => a ≤ b) with
  | nil =>
    rw [hs] at hperm
    exact absurd hperm.symm.eq_nil hne
  | cons m rest =>
    rw [hs] at hperm hsorted
    have hmem : m ∈ l := hperm.mem_iff.mp (List.mem_cons_self m rest)
    refine ⟨m, by simp, hmem, ?_⟩
    intro x hx
    have hx2 : x ∈ m :: rest := hperm.mem_iff.mpr hx
    rcases List.mem_cons.mp hx2 with h | h
    · exact le_of_eq h.symm
    · exact (List.sorted_cons.mp hsorted).1 x h

/-- Claim C1: for every non-empty list and every percentile p with
0 ≤ p < 100, CalculatePercentile computes
percentileIdx = len * (p / 100) = 0 by truncating integer division before
multiplication, and therefore returns the smallest element of the list. -/
theorem calculatePercentile_low_percentile_returns_minimum
    (l : List Int) (p : Int) (hne : l ≠ []) (h0 : 0 ≤ p) (h100 : p < 100) :
    percentileIdx (l.length : Int) p = 0 ∧
    ∃ m, CalculatePercentile l p = some m ∧ m ∈ l ∧ ∀ x ∈ l, m ≤ x := by
  have hidx : percentileIdx (l.length : Int) p = 0 := by
    simp [percentileIdx, tdiv_hundred_eq_zero h0 h100]
  refine ⟨hidx, ?_⟩
  obtain ⟨m, hm0, hmem, hleast⟩ := insertionSort_head_least l hne
  refine ⟨m, ?_, hmem, hleast⟩
  simp only [CalculatePercentile, hidx, le_refl, if_pos, Int.toNat_zero]
  exact hm0

/-- Witness for claim C1 at the concrete list [3, 1, 2] and percentile 90. -/
theorem calculatePercentile_low_percentile_returns_minimum_witness :
    percentileIdx ((([3, 1, 2] : List Int).length : Nat) : Int) 90 = 0 ∧
    ∃ m, CalculatePercentile [3, 1, 2] 90 = some m ∧ m ∈ ([3, 1, 2] : List Int) ∧
      ∀ x ∈ ([3, 1, 2] : List Int), m ≤ x :=
  calculatePercentile_low_percentile_returns_minimum [3, 1, 2] 90 (by decide) (by decide)
    (by decide)

/-- Claim C10: for every non-empty list, CalculatePercentile at percentile
100 computes percentileIdx = len, one past the end of the sorted slice, so
the slice access is out of bounds and the function cannot return normally
(the Go panic is modelled as none). -/
theorem calculatePercentile_hundred_out_of_bounds (l : List Int) (hne : l ≠ []) :
    percentileIdx (l.length : Int) 100 = (l.length : Int) ∧
    CalculatePercentile l 100 = none := by
  have hd : (100 : Int).tdiv 100 = 1 := by decide
  have hidx : percentileIdx (l.length : Int) 100 = (l.length : Int) := by
    simp [percentileIdx, hd]
  refine ⟨hidx, ?_⟩
  have hlen : (l.insertionSort (fun a b => a ≤ b)).length = l.length :=
    (List.perm_insertionSort (fun a b : Int => a ≤ b) l).length_eq
  simp only [CalculatePercentile, hidx, Int.natCast_nonneg, if_pos, Int.toNat_natCast]
  exact List.getElem?_eq_none (le_of_eq hlen)

/-- Witness for claim C10 at the concrete list [5]. -/
theorem calculatePercentile_hundred_out_of_bounds_witness :
    percentileIdx ((([5] : List Int).length : Nat) : Int) 100 = ((([5] : List Int).length : Nat) : Int) ∧
    CalculatePercentile [5] 100 = none :=
  calculatePercentile_hundred_out_of_bounds [5] (by decide)

/-- Claim C2: at termination the reported RPM (P90) is 60 divided by the
mean of the self and foreign P90 latencies taken over the full untrimmed
series, and the reported RPM (Trimmed-mean) is 60 divided by the mean of the
self and foreign double-sided-10%-trimmed-mean latencies, the trimmed mean
being taken over the series with the lowest 10% and highest 10% dropped. -/
theorem rpm_final_report_formulas (selfRtts foreignRtts : List ℚ) :
    (calculateRpms selfRtts foreignRtts).1
        = 60 / specMeanOfTwo (seriesPercentile selfRtts 90) (seriesPercentile foreignRtts 90) ∧
    (calculateRpms selfRtts foreignRtts).2
        = 60 / specMeanOfTwo (specTrimmedMean selfRtts) (specTrimmedMean foreignRtts) := by
  constructor
  · rfl
  · rfl

/-- Claim C6: on every termination path the teardown order is exact: the
prober operator and the download and upload load-generator operators are
cancelled first, then extended stats are optionally gathered, then the
network-activity scope is cancelled, and the operating scope is cancelled
last; the network-activity cancellation never precedes the operator
cancellations. -/
theorem teardown_exact_order (ranToStability calculateExtendedStats : Bool) :
    (postLoopTeardown ranToStability calculateExtendedStats).indexOf
        TeardownAction.cancelProberOperator = 0 ∧
    (postLoopTeardown ranToStability calculateExtendedStats).indexOf
        TeardownAction.cancelDownloadOperator = 1 ∧
    (postLoopTeardown ranToStability calculateExtendedStats).indexOf
        TeardownAction.cancelUploadOperator = 2 ∧
    (postLoopTeardown ranToStability calculateExtendedStats).indexOf
        TeardownAction.gatherExtendedStats
      = (if calculateExtendedStats then 3
         else (postLoopTeardown ranToStability calculateExtendedStats).length) ∧
    (postLoopTeardown ranToStability calculateExtendedStats).indexOf
        TeardownAction.cancelNetworkActivity = (if calculateExtendedStats then 4 else 3) ∧
    (postLoopTeardown ranToStability calculateExtendedStats).indexOf
        TeardownAction.cancelOperating = (if calculateExtendedStats then 5 else 4) ∧
    (postLoopTeardown ranToStability calculateExtendedStats).length
      = (if calculateExtendedStats then 6 else 5) := by
  cases ranToStability <;> cases calculateExtendedStats <;> decide

/-- Helper: mapping a constant over Iota 0 k gives k copies of the
constant. -/
theorem map_const_Iota (k : Nat) (v : ℚ) :
    (Iota 0 (k : Int)).map (fun _ => v) = List.replicate k v := by
  have hlen : (Iota 0 (k : Int)).length = k := by
    simp only [Iota, List.length_map, List.length_range]
    omega
  rw [show (fun (_ : Int) => v) = Function.const Int v from rfl, List.map_const, hlen]

/-- Claim C5: a foreign probe measurement with round-trip count k at least 1
and total duration d appends exactly k elements to the foreign latency
series, each d / k, whose sum is d; a SelfDown or SelfUp measurement appends
the single full duration to the self latency series. -/
theorem foreign_probe_split_equal_subsamples (m : ProbeDataPoint)
    (selfRtts foreignRtts : List ℚ) (hk : 1 ≤ m.roundTripCount) :
    (m.type = ProbeType.Foreign →
      processProbeMeasurement m selfRtts foreignRtts
          = (selfRtts,
             foreignRtts ++ List.replicate m.roundTripCount
               (m.durationSeconds / (m.roundTripCount : ℚ))) ∧
      (List.replicate m.roundTripCount
          (m.durationSeconds / (m.roundTripCount : ℚ))).sum = m.durationSeconds) ∧
    ((m.type = ProbeType.SelfDown ∨ m.type = ProbeType.SelfUp) →
      processProbeMeasurement m selfRtts foreignRtts
          = (selfRtts ++ [m.durationSeconds], foreignRtts)) := by
  have hk0 : ((m.roundTripCount : ℚ)) ≠ 0 := Nat.cast_ne_zero.mpr (by omega)
  constructor
  · intro ht
    constructor
    · simp only [processProbeMeasurement, ht, if_pos]
      rw [map_const_Iota]
    · rw [List.sum_replicate, nsmul_eq_mul, mul_div_cancel₀ _ hk0]
  · intro ht
    have hnf : ¬(m.type = ProbeType.Foreign) := by
      rcases ht with h | h <;> simp [h]
    rcases ht with h | h <;>
      simp [processProbeMeasurement, hnf, h]

/-- Witness for claim C5 at a concrete foreign measurement with duration 6
and round-trip count 3. -/
theorem foreign_probe_split_equal_subsamples_witness :
    ((⟨ProbeType.Foreign, 6, 3⟩ : ProbeDataPoint).type = ProbeType.Foreign →
      processProbeMeasurement ⟨ProbeType.Foreign, 6, 3⟩ [] []
          = ([], [] ++ List.replicate (⟨ProbeType.Foreign, 6, 3⟩ : ProbeDataPoint).roundTripCount
              ((⟨ProbeType.Foreign, 6, 3⟩ : ProbeDataPoint).durationSeconds
                / ((⟨ProbeType.Foreign, 6, 3⟩ : ProbeDataPoint).roundTripCount : ℚ))) ∧
      (List.replicate (⟨ProbeType.Foreign, 6, 3⟩ : ProbeDataPoint).roundTripCount
          ((⟨ProbeType.Foreign, 6, 3⟩ : ProbeDataPoint).durationSeconds
            / ((⟨ProbeType.Foreign, 6, 3⟩ : ProbeDataPoint).roundTripCount : ℚ))).sum
        = (⟨ProbeType.Foreign, 6, 3⟩ : ProbeDataPoint).durationSeconds) ∧
    (((⟨ProbeType.Foreign, 6, 3⟩ : ProbeDataPoint).type = ProbeType.SelfDown ∨
      (⟨ProbeType.Foreign, 6, 3⟩ : ProbeDataPoint).type = ProbeType.SelfUp) →
      processProbeMeasurement ⟨ProbeType.Foreign, 6, 3⟩ [] []
          = ([] ++ [(⟨ProbeType.Foreign, 6, 3⟩ : ProbeDataPoint).durationSeconds], [])) :=
  foreign_probe_split_equal_subsamples ⟨ProbeType.Foreign, 6, 3⟩ [] [] (by decide)

/-- Claim C3: the test is declared stable exactly when the three stabilizer
flags hold simultaneously at the loop check; the exit is by timeout iff the
flags were not simultaneously stable, so testRanToStability records whether
termination was by stabilization rather than by timeout, and on timeout the
RPM lines are still emitted, preceded by the estimate label. -/
theorem stability_flag_iff_not_timeout (f0 : StabilityFlags) (evs : List OrchEvent)
    (f : StabilityFlags) (byTimeout : Bool) (p90 trimmed : ℚ)
    (h : measurementLoop f0 evs = some (f, byTimeout)) :
    testRanToStability f = !byTimeout ∧
    (ReportLine.estimateWarning ∈ finalReportLines (testRanToStability f) p90 trimmed
      ↔ byTimeout = true) ∧
    ReportLine.rpmP90 p90 ∈ finalReportLines (testRanToStability f) p90 trimmed ∧
    ReportLine.rpmTrimmedMean trimmed ∈ finalReportLines (testRanToStability f) p90 trimmed := by
  have key : testRanToStability f = !byTimeout := by
    induction evs generalizing f0 with
    | nil =>
      simp only [measurementLoop] at h
      by_cases hall : allStable f0 = true
      · rw [if_pos hall] at h
        simp only [Option.some.injEq, Prod.mk.injEq] at h
        obtain ⟨rfl, rfl⟩ := h
        obtain ⟨a, b, c⟩ := f0
        revert hall
        cases a <;> cases b <;> cases c <;> decide
      · rw [if_neg hall] at h
        exact absurd h (by simp)
    | cons ev rest ih =>
      simp only [measurementLoop] at h
      by_cases hall : allStable f0 = true
      · rw [if_pos hall] at h
        simp only [Option.some.injEq, Prod.mk.injEq] at h
        obtain ⟨rfl, rfl⟩ := h
        obtain ⟨a, b, c⟩ := f0
        revert hall
        cases a <;> cases b <;> cases c <;> decide
      · rw [if_neg hall] at h
        cases ev with
        | downloadMeasurement b => exact ih _ h
        | uploadMeasurement b => exact ih _ h
        | probeMeasurement b => exact ih _ h
        | timeoutFired =>
          simp only [Option.some.injEq, Prod.mk.injEq] at h
          obtain ⟨rfl, rfl⟩ := h
          obtain ⟨a, b, c⟩ := f0
          revert hall
          cases a <;> cases b <;> cases c <;> decide
  refine ⟨key, ?_, ?_, ?_⟩
  · rw [key]; cases byTimeout <;> simp [finalReportLines]
  · rw [key]; cases byTimeout <;> simp [finalReportLines]
  · rw [key]; cases byTimeout <;> simp [finalReportLines]

/-- Witness for claim C3 on a concrete trace in which the three stabilizers
become stable and the loop exits without a timeout. -/
theorem stability_flag_iff_not_timeout_witness :
    measurementLoop ⟨false, false, false⟩
        [OrchEvent.probeMeasurement true, OrchEvent.downloadMeasurement true,
         OrchEvent.uploadMeasurement true]
      = some (⟨true, true, true⟩, false) ∧
    (testRanToStability ⟨true, true, true⟩ = !false ∧
     (ReportLine.estimateWarning
        ∈ finalReportLines (testRanToStability ⟨true, true, true⟩) 600 600 ↔ false = true) ∧
     ReportLine.rpmP90 600 ∈ finalReportLines (testRanToStability ⟨true, true, true⟩) 600 600 ∧
     ReportLine.rpmTrimmedMean 600
        ∈ finalReportLines (testRanToStability ⟨true, true, true⟩) 600 600) :=
  ⟨by decide,
   stability_flag_iff_not_timeout ⟨false, false, false⟩
     [OrchEvent.probeMeasurement true, OrchEvent.downloadMeasurement true,
      OrchEvent.uploadMeasurement true]
     ⟨true, true, true⟩ false 600 600 (by decide)⟩

/-- Counterexample to claim C4 as stated: a sample of exactly 15 s is not
counted as a loss; it stays live, enters the empirical distribution and the
offset aggregates.  The loss threshold is strictly greater than 15 s. -/
theorem addSample_at_exactly_fifteen_is_live :
    AddSample NewSimpleQualityAttenuation 15 =
      Except.ok { numberOfSamples := 1, numberOfLosses := 0, minimumLatency := 15,
                  maximumLatency := 15, offsetSum := 149 / 10,
                  offsetSumOfSquares := 22201 / 100, empiricalDistribution := [15] } := by
  norm_num [AddSample, NewSimpleQualityAttenuation]

/-- Claim C4 amended: for every non-negative sample, AddSample counts the
sample; a sample strictly greater than 15 s increments the loss counter and
is excluded from the empirical distribution and from the offset aggregates,
while a sample of at most 15 s (including exactly 15 s) is live and
included. -/
theorem addSample_loss_threshold_strict (qa : SimpleQualityAttenuation) (s : ℚ)
    (h0 : 0 ≤ s) :
    ∃ qa2, AddSample qa s = Except.ok qa2 ∧
      qa2.numberOfSamples = qa.numberOfSamples + 1 ∧
      (15 < s →
        qa2.numberOfLosses = qa.numberOfLosses + 1 ∧
        qa2.empiricalDistribution = qa.empiricalDistribution ∧
        qa2.offsetSum = qa.offsetSum ∧
        qa2.offsetSumOfSquares = qa.offsetSumOfSquares) ∧
      (s ≤ 15 →
        qa2.numberOfLosses = qa.numberOfLosses ∧
        qa2.empiricalDistribution = qa.empiricalDistribution ++ [s] ∧
        qa2.offsetSum = qa.offsetSum + (s - 1 / 10) ∧
        qa2.offsetSumOfSquares = qa.offsetSumOfSquares + (s - 1 / 10) ^ 2) := by
  have hneg : ¬(s < 0) := not_lt.mpr h0
  by_cases h15 : 15 < s
  · refine ⟨{ qa with
        numberOfSamples := qa.numberOfSamples + 1
        numberOfLosses := qa.numberOfLosses + 1
        minimumLatency := min qa.minimumLatency 15
        maximumLatency := max qa.maximumLatency 15 },
      ?_, rfl, fun _ => ⟨rfl, rfl, rfl, rfl⟩, fun hle => absurd h15 (not_lt.mpr hle)⟩
    unfold AddSample
    rw [if_neg hneg, if_pos h15]
  · refine ⟨{ qa with
        numberOfSamples := qa.numberOfSamples + 1
        minimumLatency := min qa.minimumLatency s
        maximumLatency := max qa.maximumLatency s
        offsetSum := qa.offsetSum + (s - 1 / 10)
        offsetSumOfSquares := qa.offsetSumOfSquares + (s - 1 / 10) ^ 2
        empiricalDistribution := qa.empiricalDistribution ++ [s] },
      ?_, rfl, fun h => absurd h h15, fun _ => ⟨rfl, rfl, rfl, rfl⟩⟩
    unfold AddSample
    rw [if_neg hneg, if_neg h15]

/-- Witness for the amended claim C4 at a fresh state and the live sample
3 s. -/
theorem addSample_loss_threshold_strict_witness :
    (0 : ℚ) ≤ 3 ∧
    ∃ qa2, AddSample NewSimpleQualityAttenuation 3 = Except.ok qa2 ∧
      qa2.numberOfSamples = NewSimpleQualityAttenuation.numberOfSamples + 1 ∧
      (15 < (3 : ℚ) →
        qa2.numberOfLosses = NewSimpleQualityAttenuation.numberOfLosses + 1 ∧
        qa2.empiricalDistribution = NewSimpleQualityAttenuation.empiricalDistribution ∧
        qa2.offsetSum = NewSimpleQualityAttenuation.offsetSum ∧
        qa2.offsetSumOfSquares = NewSimpleQualityAttenuation.offsetSumOfSquares) ∧
      ((3 : ℚ) ≤ 15 →
        qa2.numberOfLosses = NewSimpleQualityAttenuation.numberOfLosses ∧
        qa2.empiricalDistribution
          = NewSimpleQualityAttenuation.empiricalDistribution ++ [(3 : ℚ)] ∧
        qa2.offsetSum = NewSimpleQualityAttenuation.offsetSum + ((3 : ℚ) - 1 / 10) ∧
        qa2.offsetSumOfSquares
          = NewSimpleQualityAttenuation.offsetSumOfSquares + ((3 : ℚ) - 1 / 10) ^ 2) :=
  ⟨by norm_num, addSample_loss_threshold_strict NewSimpleQualityAttenuation 3 (by norm_num)⟩

/-- Claim C7: Get and Append return the "collection is unlocked" error when
the mutex is not held (TryLock succeeds), and in that case the contents are
unchanged; when the lock is held, Append appends and Get reads the
element. -/
theorem collection_ops_require_lock (lgcs : List Nat) (idx : Int) (conn : Nat) :
    (collectionGet false lgcs idx = GetResult.errUnlocked ∧
     collectionAppend false lgcs conn = (some "collection is unlocked", lgcs)) ∧
    ((collectionAppend true lgcs conn).1 = none ∧
     (collectionAppend true lgcs conn).2 = lgcs ++ [conn] ∧
     ∀ e, 0 ≤ idx → lgcs[idx.toNat]? = some e →
       collectionGet true lgcs idx = GetResult.ok e) := by
  refine ⟨⟨?_, ?_⟩, ?_, ?_, ?_⟩
  · simp [collectionGet]
  · simp [collectionAppend]
  · simp [collectionAppend]
  · simp [collectionAppend]
  · intro e h0 he
    obtain ⟨hlt, _⟩ := List.getElem?_eq_some.mp he
    have hnlt : ¬((lgcs.length : Int) < idx) := by omega
    unfold collectionGet
    rw [if_neg (by simp), if_neg hnlt, if_pos h0, he]

/-- Witness for claim C7 at the one-element collection [7], index 0 and new
connection 9. -/
theorem collection_ops_require_lock_witness :
    (collectionGet false [7] 0 = GetResult.errUnlocked ∧
     collectionAppend false [7] 9 = (some "collection is unlocked", [7])) ∧
    ((collectionAppend true [7] 9).1 = none ∧
     (collectionAppend true [7] 9).2 = [7] ++ [9] ∧
     ∀ e, 0 ≤ (0 : Int) → ([7] : List Nat)[(0 : Int).toNat]? = some e →
       collectionGet true [7] 0 = GetResult.ok e) :=
  collection_ops_require_lock [7] 0 9

/-- Helper: the contents of the collection after any sequence of Get, Append
and Len operations extend the starting contents. -/
theorem applyOps_extends {α : Type} (l : List α) (ops : List (Bool × CollectionOp α)) :
    ∃ rest, applyOps l ops = l ++ rest := by
  induction ops generalizing l with
  | nil => exact ⟨[], by simp [applyOps]⟩
  | cons op ops ih =>
    have step : applyOps l (op :: ops) = applyOps (applyOp l op) ops := rfl
    rw [step]
    obtain ⟨b, o⟩ := op
    cases o with
    | getOp i => exact ih l
    | lenOp => exact ih l
    | appendOp c =>
      cases b with
      | false => exact ih l
      | true =>
        obtain ⟨r, hr⟩ := ih (l ++ [c])
        exact ⟨c :: r, by simpa [List.append_assoc] using hr⟩

/-- Claim C8: the pool is append-only: a successful Append yields exactly
the old contents plus the new element at the end (so the length grows by one
and existing elements keep their indices), and over any sequence of Get,
Append and Len operations the contents only ever extend, so the length is
monotone non-decreasing. -/
theorem collection_append_only_monotone (lgcs : List Nat) (conn : Nat) (locked : Bool)
    (ops : List (Bool × CollectionOp Nat)) :
    ((collectionAppend locked lgcs conn).1 = none →
      (collectionAppend locked lgcs conn).2 = lgcs ++ [conn] ∧
      (collectionAppend locked lgcs conn).2.length = lgcs.length + 1) ∧
    (∃ rest, applyOps lgcs ops = lgcs ++ rest) ∧
    lgcs.length ≤ (applyOps lgcs ops).length := by
  refine ⟨?_, applyOps_extends lgcs ops, ?_⟩
  · intro h
    cases locked with
    | false => simp [collectionAppend] at h
    | true => simp [collectionAppend]
  · obtain ⟨r, hr⟩ := applyOps_extends lgcs ops
    rw [hr]
    simp

/-- Witness for claim C8 on the collection [1, 2] with a locked append, an
unlocked append and a locked Get. -/
theorem collection_append_only_monotone_witness :
    ((collectionAppend true [1, 2] 3).1 = none →
      (collectionAppend true [1, 2] 3).2 = [1, 2] ++ [3] ∧
      (collectionAppend true [1, 2] 3).2.length = ([1, 2] : List Nat).length + 1) ∧
    (∃ rest, applyOps [1, 2]
        [(true, CollectionOp.appendOp 5), (false, CollectionOp.appendOp 6),
         (true, CollectionOp.getOp 0)] = [1, 2] ++ rest) ∧
    ([1, 2] : List Nat).length ≤ (applyOps [1, 2]
        [(true, CollectionOp.appendOp 5), (false, CollectionOp.appendOp 6),
         (true, CollectionOp.getOp 0)]).length :=
  collection_append_only_monotone [1, 2] 3 true
    [(true, CollectionOp.appendOp 5), (false, CollectionOp.appendOp 6),
     (true, CollectionOp.getOp 0)]

/-- Claim C9: with the lock held, Get rejects an index as too large only
when idx > len, so Get at idx = len passes the bounds check and performs an
out-of-range slice access (a panic); Get returns an element only for
0 ≤ idx < len, and then it is the element at idx. -/
theorem collectionGet_bounds_off_by_one (lgcs : List Nat) (idx : Int) :
    (collectionGet true lgcs idx = GetResult.errIndexTooLarge
      ↔ (lgcs.length : Int) < idx) ∧
    collectionGet true lgcs (lgcs.length : Int) = GetResult.panics ∧
    (∀ e, collectionGet true lgcs idx = GetResult.ok e →
      0 ≤ idx ∧ idx < (lgcs.length : Int) ∧ lgcs[idx.toNat]? = some e) := by
  refine ⟨⟨?_, ?_⟩, ?_, ?_⟩
  · intro h
    by_contra hlt
    unfold collectionGet at h
    rw [if_neg (by simp), if_neg hlt] at h
    by_cases h0 : 0 ≤ idx
    · rw [if_pos h0] at h
      cases hx : lgcs[idx.toNat]? <;> simp [hx] at h
    · rw [if_neg h0] at h
      simp at h
  · intro hlt
    unfold collectionGet
    rw [if_neg (by simp), if_pos hlt]
  · unfold collectionGet
    have hnlt : ¬((lgcs.length : Int) < (lgcs.length : Int)) := lt_irrefl _
    rw [if_neg (by simp), if_neg hnlt, if_pos (Int.natCast_nonneg _)]
    have hn : lgcs[((lgcs.length : Int)).toNat]? = none := by
      rw [Int.toNat_natCast]
      exact List.getElem?_eq_none (le_refl _)
    rw [hn]
  · intro e h
    unfold collectionGet at h
    rw [if_neg (by simp)] at h
    by_cases hlt : (lgcs.length : Int) < idx
    · rw [if_pos hlt] at h
      simp at h
    · rw [if_neg hlt] at h
      by_cases h0 : 0 ≤ idx
      · rw [if_pos h0] at h
        cases hx : lgcs[idx.toNat]? with
        | none => simp [hx] at h
        | some c =>
          simp only [hx] at h
          cases h
          obtain ⟨hl, _⟩ := List.getElem?_eq_some.mp hx
          exact ⟨h0, by omega, rfl⟩
      · rw [if_neg h0] at h
        simp at h

/-- Witness for claim C9 at the two-element collection [4, 5] and index 1. -/
theorem collectionGet_bounds_off_by_one_witness :
    (collectionGet true [4, 5] 1 = GetResult.errIndexTooLarge
      ↔ ((([4, 5] : List Nat).length : Nat) : Int) < 1) ∧
    collectionGet true [4, 5] ((([4, 5] : List Nat).length : Nat) : Int) = GetResult.panics ∧
    (∀ e, collectionGet true [4, 5] 1 = GetResult.ok e →
      0 ≤ (1 : Int) ∧ (1 : Int) < ((([4, 5] : List Nat).length : Nat) : Int) ∧
      ([4, 5] : List Nat)[(1 : Int).toNat]? = some e) :=
  collectionGet_bounds_off_by_one [4, 5] 1
